import Mathlib

/-!
Verification development for the review-analytics service in
`src/spreetail_assesment/main.py`.

The Python module is embedded shallowly:
* strings are Lean `String`s, manipulated through `List Char` helpers that
  mirror the Python `str` methods used by the source (`strip`, `lower`,
  `replace(c, "")`, `split(',')`, the `in` substring test);
* Python `float` timestamps and durations are modelled as `ℚ`, with
  `round(x, n)` modelled as decimal round-half-to-even (`pyRound`);
* the process-wide pieces of state read by the handlers — the
  `OPENAI_API_KEY` environment variable, the outcome of the external
  OpenAI call, the two `time.time()` readings, and the in-memory
  `reviews_db` list — are passed explicitly as parameters;
* a successful external call carries the response content as
  `some content`; `none` stands for the exception path (network error,
  missing key, etc.), which the source catches and turns into fallback.
-/

namespace ReviewAnalytics

/-- The double-quote character stripped by `.strip('"')` in the source. -/
def dquote : Char := Char.ofNat 34

/-- The single-quote character stripped by `.strip("'")` in the source. -/
def squote : Char := Char.ofNat 39

/-- Drop occurrences of whitespace characters from both ends of a character
list: the `List Char` form of Python's `str.strip()`. -/
def trimChars (l : List Char) : List Char :=
  ((l.dropWhile Char.isWhitespace).reverse.dropWhile Char.isWhitespace).reverse

/-- Python's `s.strip()` on strings. -/
def pyStrip (s : String) : String :=
  ⟨trimChars s.data⟩

/-- Python's `s.strip(c)` for a single character `c`: drop occurrences of `c`
from both ends. -/
def stripAll (c : Char) (l : List Char) : List Char :=
  ((l.dropWhile (fun x => x == c)).reverse.dropWhile (fun x => x == c)).reverse

/-- Python's `s.lower()` (the source only ever lowercases ASCII keywords). -/
def pyLower (s : String) : String :=
  ⟨s.data.map Char.toLower⟩

/-- Python's `s.split(',')` on a character list: `splitComma []` is `[[]]`,
matching `"".split(',') == [""]`. -/
def splitComma : List Char → List (List Char)
  | [] => [[]]
  | c :: rest =>
    if c = ',' then
      [] :: splitComma rest
    else
      match splitComma rest with
      | [] => [[ c ]]
      | t :: ts => (c :: t) :: ts

/-- Boolean substring test: `containsSub s p` is Python's `p in s`. -/
def containsSub : List Char → List Char → Bool
  | [], p => p.isEmpty
  | c :: rest, p => p.isPrefixOf (c :: rest) || containsSub rest p

/-- Python's `sub in s` on strings. -/
def strContains (s sub : String) : Bool :=
  containsSub s.data sub.data

/-- Round-half-to-even to an integer, the rounding mode of Python's
built-in `round`. -/
def roundHalfEven (x : ℚ) : ℤ :=
  let f := ⌊x⌋
  if x - f < 1 / 2 then f
  else if 1 / 2 < x - f then f + 1
  else if f % 2 = 0 then f else f + 1

/-- Python's `round(x, ndigits)` on the rational model of floats. -/
def pyRound (x : ℚ) (ndigits : ℕ) : ℚ :=
  (roundHalfEven (x * 10 ^ ndigits) : ℚ) / 10 ^ ndigits

/-- The `# --- Fallback mock logic ---` block of `get_ai_tags`
(`main.py` lines 44-53). -/
def mockTags (review_text : String) : List String :=
  let lower_text := pyLower review_text
  if strContains lower_text "late" || strContains lower_text "delay" then
    ["late_delivery", "shipping_delay"]
  else if strContains lower_text "broken" || strContains lower_text "not working" then
    ["defective_item", "product_failure"]
  else if strContains lower_text "refund" || strContains lower_text "return" then
    ["refund_request", "customer_service"]
  else
    ["general_feedback"]

/-- The success-path parser of `get_ai_tags` (`main.py` lines 37-39):
`[t.strip().strip('"').strip("'") for t in ai_output.replace('[', '').replace(']', '').split(',') if t.strip()][:3]`.
`replace('[', '')` deletes every occurrence of the bracket character, so it
is modelled as a character filter. -/
def parseAiTags (ai_output : String) : List String :=
  let cleaned := (ai_output.data.filter (fun c => c != '[')).filter (fun c => c != ']')
  let toks := splitComma cleaned
  (((toks.filter (fun t => !(trimChars t).isEmpty)).map
      (fun t => stripAll squote (stripAll dquote (trimChars t)))).map
    (fun t => (⟨t⟩ : String))).take 3

/-- Embedding of `get_ai_tags` (`main.py` lines 13-53).  `api_key` is the value of
`os.getenv("OPENAI_API_KEY")`; `ai_response` is `some content` when the
external call returns `content` (already `.strip()`-ed by the source before
parsing is modelled below), and `none` when it raises.  When no key is set
the external call is never attempted. -/
def get_ai_tags (api_key : Option String) (ai_response : Option String)
    (review_text : String) : List String :=
  match api_key with
  | some _ =>
    match ai_response with
    | some content => parseAiTags (pyStrip content)
    | none => mockTags review_text
  | none => mockTags review_text

/-- One entry of `reviews_db`:
`{"text": str, "tags": List[str], "processing_time": float}`. -/
structure ReviewRecord where
  text : String
  tags : List String
  processing_time : ℚ

/-- The JSON body returned by `POST /analyze`. -/
inductive AnalyzeResult where
  | err (msg : String)
  | ok (review_text : String) (tags : List String) (processing_time : ℚ)

/-- Embedding of `analyze_review` (`main.py` lines 63-78).  `payload` is the
`review_text` field of the request body (`none` when absent; `payload.get`
then yields `""`); `t0` and `t1` are the two `time.time()` readings taken
around the classification call; the handler returns the response body and
the new `reviews_db`. -/
def analyze_review (api_key ai_response : Option String) (payload : Option String)
    (t0 t1 : ℚ) (reviews_db : List ReviewRecord) :
    AnalyzeResult × List ReviewRecord :=
  let review_text := pyStrip (payload.getD "")
  if review_text = "" then
    (AnalyzeResult.err "Missing review_text", reviews_db)
  else
    let tags := get_ai_tags api_key ai_response review_text
    let elapsed := pyRound (t1 - t0) 3
    (AnalyzeResult.ok review_text tags elapsed,
      reviews_db ++ [{ text := review_text, tags := tags, processing_time := elapsed }])

/-- One step of the frequency loop of `top_k_tags`:
`freq[tag] = freq.get(tag, 0) + 1` on a Python 3.7+ dict, which preserves
insertion order; the dict is modelled as an association list whose key
order is insertion order. -/
def bump (freq : List (String × ℕ)) (tag : String) : List (String × ℕ) :=
  match freq with
  | [] => [(tag, 1)]
  | (t, c) :: rest => if t = tag then (t, c + 1) :: rest else (t, c) :: bump rest tag

/-- The whole frequency loop of `top_k_tags` (`main.py` lines 57-59). -/
def buildFreq (tag_list : List String) : List (String × ℕ) :=
  tag_list.foldl bump []

/-- Stable descending insertion by count: the element is placed before the
first entry whose count is not larger, so it ends up after every
earlier-inserted entry of equal count. -/
def insertDesc (a : String × ℕ) : List (String × ℕ) → List (String × ℕ)
  | [] => [a]
  | y :: ys => if y.2 ≤ a.2 then a :: y :: ys else y :: insertDesc a ys

/-- Stable descending sort by count, the behaviour of
`sorted(freq.items(), key=lambda x: x[1], reverse=True)`: Python's `sorted`
is documented to be stable, and `reverse=True` keeps equal-key elements in
their original order. -/
def sortDesc : List (String × ℕ) → List (String × ℕ)
  | [] => []
  | a :: rest => insertDesc a (sortDesc rest)

/-- Embedding of `top_k_tags` (`main.py` lines 56-60). -/
def top_k_tags (tag_list : List String) (k : ℕ) : List (String × ℕ) :=
  (sortDesc (buildFreq tag_list)).take k

/-- The JSON body returned by `GET /summary`. -/
inductive SummaryResult where
  | message (msg : String)
  | stats (total_reviews : ℕ) (top_tags : List (String × ℕ)) (avg_processing_time : ℚ)

/-- Embedding of `get_summary` (`main.py` lines 81-95). -/
def get_summary (reviews_db : List ReviewRecord) : SummaryResult :=
  if reviews_db.isEmpty then
    SummaryResult.message "No reviews analyzed yet."
  else
    let all_tags := reviews_db.flatMap (fun entry => entry.tags)
    let total_reviews := reviews_db.length
    let avg_processing_time :=
      pyRound (((reviews_db.map (fun r => r.processing_time)).sum) / (total_reviews : ℚ)) 2
    SummaryResult.stats total_reviews (top_k_tags all_tags 3) avg_processing_time

/-! ## Helper lemmas -/

/-- The test `containsSub s p` decides list containment of a contiguous substring. -/
theorem containsSub_iff (s p : List Char) : containsSub s p = true ↔ p <:+: s := by
  induction s with
  | nil =>
    simp [containsSub, List.isEmpty_iff, List.infix_nil]
  | cons c rest ih =>
    rw [containsSub, Bool.or_eq_true, List.infix_cons_iff, ih,
      List.isPrefixOf_iff_prefix]

/-- The test `strContains s sub` decides the substring relation on the underlying
character lists. -/
theorem strContains_iff (s sub : String) :
    strContains s sub = true ↔ sub.data <:+: s.data := by
  rw [strContains, containsSub_iff]

/-- The fallback rule table exactly as the specification words it:
case-insensitive substring matches (stated via list containment in the
lowercased text), evaluated in fixed priority order, first match winning. -/
def ruleTagsSpec (text : String) : List String :=
  if "late".data <:+: (pyLower text).data ∨ "delay".data <:+: (pyLower text).data then
    ["late_delivery", "shipping_delay"]
  else if "broken".data <:+: (pyLower text).data ∨ "not working".data <:+: (pyLower text).data then
    ["defective_item", "product_failure"]
  else if "refund".data <:+: (pyLower text).data ∨ "return".data <:+: (pyLower text).data then
    ["refund_request", "customer_service"]
  else
    ["general_feedback"]

/-- The fallback branch of `get_ai_tags` agrees with the specification's rule
table on every input text. -/
theorem mockTags_eq_ruleTagsSpec (text : String) : mockTags text = ruleTagsSpec text := by
  unfold mockTags ruleTagsSpec
  simp only [Bool.or_eq_true, strContains_iff]

/-- A concrete stored record used to instantiate witnesses. -/
def sampleRecord : ReviewRecord :=
  { text := "Great product", tags := ["general_feedback"], processing_time := 1 }

/-! ## Claim C1 -/

/-- Claim C1: whenever no external credential is configured or the external
call fails, classification returns exactly the rule-based result, with the
rules checked in fixed priority order on the lowercased text, first match
winning; in particular a text containing both "late" and "broken" yields the
late/delay tags, never the broken-item tags. -/
theorem claim_c1_fallback_rules :
    (∀ (api_key ai_response : Option String) (text : String),
      api_key = none ∨ ai_response = none →
      get_ai_tags api_key ai_response text = ruleTagsSpec text) ∧
    get_ai_tags none none "The item arrived late and broken" =
      ["late_delivery", "shipping_delay"] := by
  constructor
  · intro api_key ai_response text h
    have hm := mockTags_eq_ruleTagsSpec text
    rcases h with h | h
    · subst h
      simpa [get_ai_tags] using hm
    · subst h
      cases api_key <;> simpa [get_ai_tags] using hm
  · decide

/-- Witness for C1 at a concrete configured-key-but-failed-call input. -/
theorem claim_c1_fallback_rules_witness :
    get_ai_tags (some "sk-test") none "Package arrived late" =
      ruleTagsSpec "Package arrived late" :=
  claim_c1_fallback_rules.1 (some "sk-test") none "Package arrived late" (Or.inr rfl)

/-! ## Claim C2 -/

/-- Claim C2: on the empty store the summary is the no-reviews message with
no statistics; on a non-empty store it reports the number of stored records,
the 2-decimal rounding of the mean of all stored processing times, and the
k = 3 aggregation of the concatenation of all stored tag lists in store
order. -/
theorem claim_c2_summary :
    get_summary [] = SummaryResult.message "No reviews analyzed yet." ∧
    ∀ reviews_db : List ReviewRecord, reviews_db ≠ [] →
      get_summary reviews_db =
        SummaryResult.stats reviews_db.length
          (top_k_tags (reviews_db.flatMap (fun r => r.tags)) 3)
          (pyRound ((reviews_db.map (fun r => r.processing_time)).sum /
            (reviews_db.length : ℚ)) 2) := by
  refine ⟨rfl, ?_⟩
  intro db h
  simp [get_summary, List.isEmpty_iff, h]

/-- Witness for C2 on a concrete one-record store. -/
theorem claim_c2_summary_witness :
    get_summary [sampleRecord] =
      SummaryResult.stats ([sampleRecord] : List ReviewRecord).length
        (top_k_tags (([sampleRecord] : List ReviewRecord).flatMap (fun r => r.tags)) 3)
        (pyRound ((([sampleRecord] : List ReviewRecord).map
            (fun r => r.processing_time)).sum /
          (([sampleRecord] : List ReviewRecord).length : ℚ)) 2) :=
  claim_c2_summary.2 [sampleRecord] (by simp)

/-! ## Claim C3 -/

/-- Claim C3: ingesting a payload whose text is non-empty after trimming
appends exactly one record — carrying the classifier's tags and the elapsed
time rounded to 3 decimal places — to the end of the store, leaves all
previously stored records unchanged, responds with exactly that record's
fields, and a second ingestion of the same text appends a further
independent record with no deduplication. -/
theorem claim_c3_ingestion (api_key ai_response : Option String) (s : String)
    (t0 t1 u0 u1 : ℚ) (db : List ReviewRecord) (h : pyStrip s ≠ "") :
    ∃ rec : ReviewRecord,
      analyze_review api_key ai_response (some s) t0 t1 db =
        (AnalyzeResult.ok rec.text rec.tags rec.processing_time, db ++ [rec]) ∧
      rec.text = pyStrip s ∧
      rec.tags = get_ai_tags api_key ai_response (pyStrip s) ∧
      rec.processing_time = pyRound (t1 - t0) 3 ∧
      (analyze_review api_key ai_response (some s) u0 u1
          (analyze_review api_key ai_response (some s) t0 t1 db).2).2 =
        db ++ [rec,
          { text := pyStrip s, tags := get_ai_tags api_key ai_response (pyStrip s),
            processing_time := pyRound (u1 - u0) 3 }] := by
  refine ⟨{ text := pyStrip s, tags := get_ai_tags api_key ai_response (pyStrip s),
            processing_time := pyRound (t1 - t0) 3 }, ?_, rfl, rfl, rfl, ?_⟩
  · simp [analyze_review, h]
  · simp [analyze_review, h]

/-- Witness for C3 at a concrete ingestion repeated twice. -/
theorem claim_c3_ingestion_witness :
    ∃ rec : ReviewRecord,
      analyze_review none none (some "Great product") 0 1 [] =
        (AnalyzeResult.ok rec.text rec.tags rec.processing_time, [] ++ [rec]) ∧
      rec.text = pyStrip "Great product" ∧
      rec.tags = get_ai_tags none none (pyStrip "Great product") ∧
      rec.processing_time = pyRound (1 - 0) 3 ∧
      (analyze_review none none (some "Great product") 1 2
          (analyze_review none none (some "Great product") 0 1 []).2).2 =
        [] ++ [rec,
          { text := pyStrip "Great product",
            tags := get_ai_tags none none (pyStrip "Great product"),
            processing_time := pyRound (2 - 1) 3 }] :=
  claim_c3_ingestion none none "Great product" 0 1 1 2 [] (by decide)

/-! ## Claim C4 -/

/-- Claim C4: when the `review_text` field is missing, or is empty after
trimming leading and trailing whitespace, ingestion answers exactly the
missing-field error and returns the store unchanged, for every classifier
configuration (so the classifier's outcome is never consulted). -/
theorem claim_c4_missing_text (api_key ai_response : Option String)
    (payload : Option String) (t0 t1 : ℚ) (db : List ReviewRecord)
    (h : payload = none ∨ ∃ s, payload = some s ∧ pyStrip s = "") :
    analyze_review api_key ai_response payload t0 t1 db =
      (AnalyzeResult.err "Missing review_text", db) := by
  rcases h with h | ⟨s, hs, hstrip⟩
  · subst h
    simp [analyze_review, show pyStrip "" = "" from rfl]
  · subst hs
    simp [analyze_review, hstrip]

/-- Witness for C4 on a whitespace-only review text. -/
theorem claim_c4_missing_text_witness :
    analyze_review none none (some "   ") 0 1 [] =
      (AnalyzeResult.err "Missing review_text", []) :=
  claim_c4_missing_text none none (some "   ") 0 1 []
    (Or.inr ⟨"   ", rfl, by decide⟩)

/-! ## Claim C6 -/

/-- Claim C6: the tags list in the ingestion response is exactly the tags
list of the appended record, those tags land unchanged at the end of the
flattened tag sequence a later summary aggregates, they shift every tag's
occurrence count by exactly their own multiplicity, and the summary after
the ingestion aggregates precisely the old flattened sequence extended by
those tags. -/
theorem claim_c6_roundtrip (api_key ai_response : Option String) (s : String)
    (t0 t1 : ℚ) (db : List ReviewRecord) (h : pyStrip s ≠ "") :
    ∃ tags : List String,
      (analyze_review api_key ai_response (some s) t0 t1 db).1 =
        AnalyzeResult.ok (pyStrip s) tags (pyRound (t1 - t0) 3) ∧
      ((analyze_review api_key ai_response (some s) t0 t1 db).2.map
          (fun r => r.tags)) =
        db.map (fun r => r.tags) ++ [tags] ∧
      ((analyze_review api_key ai_response (some s) t0 t1 db).2.flatMap
          (fun r => r.tags)) =
        db.flatMap (fun r => r.tags) ++ tags ∧
      (∀ t : String,
        List.count t
            ((analyze_review api_key ai_response (some s) t0 t1 db).2.flatMap
              (fun r => r.tags)) =
          List.count t (db.flatMap (fun r => r.tags)) + List.count t tags) ∧
      ∃ avg : ℚ,
        get_summary (analyze_review api_key ai_response (some s) t0 t1 db).2 =
          SummaryResult.stats (db.length + 1)
            (top_k_tags (db.flatMap (fun r => r.tags) ++ tags) 3) avg := by
  refine ⟨get_ai_tags api_key ai_response (pyStrip s), ?_, ?_, ?_, ?_, ?_⟩
  · simp [analyze_review, h]
  · simp [analyze_review, h]
  · simp [analyze_review, h, List.flatMap_append]
  · intro t
    simp [analyze_review, h, List.flatMap_append, List.count_append]
  · refine ⟨pyRound (((db.map (fun r => r.processing_time)).sum +
        pyRound (t1 - t0) 3) / ((db.length : ℚ) + 1)) 2, ?_⟩
    simp [analyze_review, h, get_summary, List.isEmpty_iff, List.flatMap_append]

/-- Witness for C6 at a concrete ingestion. -/
theorem claim_c6_roundtrip_witness :
    ∃ tags : List String,
      (analyze_review none none (some "I want a refund") 0 1 []).1 =
        AnalyzeResult.ok (pyStrip "I want a refund") tags (pyRound (1 - 0) 3) ∧
      ((analyze_review none none (some "I want a refund") 0 1 []).2.map
          (fun r => r.tags)) =
        ([] : List ReviewRecord).map (fun r => r.tags) ++ [tags] ∧
      ((analyze_review none none (some "I want a refund") 0 1 []).2.flatMap
          (fun r => r.tags)) =
        ([] : List ReviewRecord).flatMap (fun r => r.tags) ++ tags ∧
      (∀ t : String,
        List.count t
            ((analyze_review none none (some "I want a refund") 0 1 []).2.flatMap
              (fun r => r.tags)) =
          List.count t (([] : List ReviewRecord).flatMap (fun r => r.tags)) +
            List.count t tags) ∧
      ∃ avg : ℚ,
        get_summary (analyze_review none none (some "I want a refund") 0 1 []).2 =
          SummaryResult.stats (([] : List ReviewRecord).length + 1)
            (top_k_tags (([] : List ReviewRecord).flatMap (fun r => r.tags) ++ tags) 3)
            avg :=
  claim_c6_roundtrip none none "I want a refund" 0 1 [] (by decide)

/-! ## Claim C9 (corrected) -/

/-- Counterexample to C9 as stated: the client submits `" good "` (with
surrounding whitespace); the stored record's text is the trimmed `"good"`,
not the original submitted string. -/
theorem claim_c9_counterexample :
    ((analyze_review none none (some " good ") 0 0 []).2.map (fun r => r.text)) =
      ["good"] ∧
    ("good" : String) ≠ " good " := by
  constructor
  · simp [analyze_review, show pyStrip " good " ≠ "" by decide]
    decide
  · decide

/-- Claim C9 as amended: the text field of the stored record equals the
submitted review text after trimming leading and trailing whitespace (so it
equals the original exactly when the original carries no surrounding
whitespace). -/
theorem claim_c9_stored_text (api_key ai_response : Option String) (s : String)
    (t0 t1 : ℚ) (db : List ReviewRecord) (h : pyStrip s ≠ "") :
    ((analyze_review api_key ai_response (some s) t0 t1 db).2.map
        (fun r => r.text)) =
      db.map (fun r => r.text) ++ [pyStrip s] := by
  simp [analyze_review, h]

/-- Witness for the amended C9 at a concrete whitespace-wrapped input. -/
theorem claim_c9_stored_text_witness :
    ((analyze_review none none (some " good ") 0 0 []).2.map (fun r => r.text)) =
      ([] : List ReviewRecord).map (fun r => r.text) ++ [pyStrip " good "] :=
  claim_c9_stored_text none none " good " 0 0 [] (by decide)

/-! ## Claim C10 -/

/-- Claim C10: the summary responds with the no-reviews message exactly on
the empty store, so the mean's divisor — the store length — is strictly
positive in every state that reaches the division. -/
theorem claim_c10_division_guard (db : List ReviewRecord) :
    (get_summary db = SummaryResult.message "No reviews analyzed yet." ↔ db = []) ∧
    (db ≠ [] → (0 : ℚ) < (db.length : ℚ)) := by
  constructor
  · constructor
    · intro hmsg
      by_contra hne
      simp [get_summary, List.isEmpty_iff, hne] at hmsg
    · intro h
      subst h
      rfl
  · intro h
    have hlen : 0 < db.length := List.length_pos.mpr h
    exact_mod_cast hlen

/-- Witness for C10 on a concrete one-record store. -/
theorem claim_c10_division_guard_witness :
    (0 : ℚ) < ((([sampleRecord] : List ReviewRecord).length : ℕ) : ℚ) :=
  (claim_c10_division_guard [sampleRecord]).2 (by simp)

/-! ## Claim C5: the frequency map -/

/-- First-entry lookup in the association-list model of the Python dict,
`freq.get(t, 0)`. -/
def lookupCount : List (String × ℕ) → String → ℕ
  | [], _ => 0
  | (s, c) :: rest, t => if s = t then c else lookupCount rest t

/-- The distinct members of a tag sequence, in order of first occurrence. -/
def firstKeys : List String → List String
  | [] => []
  | t :: rest => t :: (firstKeys rest).filter (fun s => s != t)

/-- One `bump` raises the looked-up count of exactly the bumped tag by one. -/
theorem bump_lookup (freq : List (String × ℕ)) (tag t : String) :
    lookupCount (bump freq tag) t =
      lookupCount freq t + if tag = t then 1 else 0 := by
  induction freq with
  | nil => simp [bump, lookupCount]
  | cons p rest ih =>
    obtain ⟨s, c⟩ := p
    by_cases h1 : s = tag
    · subst h1
      by_cases h2 : s = t
      · subst h2
        simp [bump, lookupCount]
      · simp [bump, lookupCount, h2]
    · by_cases h2 : s = t
      · have ht : tag ≠ t := fun he => h1 (h2.trans he.symm)
        have h1' : ¬t = tag := fun he => ht he.symm
        simp [bump, lookupCount, h1, h2, ht, h1']
      · simp [bump, lookupCount, h1, h2, ih]

/-- Folding the frequency loop adds each tag's multiplicity to its
looked-up count. -/
theorem foldl_bump_lookup (l : List String) :
    ∀ (acc : List (String × ℕ)) (t : String),
      lookupCount (l.foldl bump acc) t = lookupCount acc t + List.count t l := by
  induction l with
  | nil =>
    intro acc t
    simp
  | cons a rest ih =>
    intro acc t
    rw [List.foldl_cons, ih, bump_lookup, List.count_cons]
    by_cases h : a = t <;> simp [h] <;> omega

/-- One `bump` leaves the key sequence unchanged when the tag is present and
appends it at the end otherwise. -/
theorem bump_keys (freq : List (String × ℕ)) (tag : String) :
    (bump freq tag).map Prod.fst =
      if tag ∈ freq.map Prod.fst then freq.map Prod.fst
      else freq.map Prod.fst ++ [tag] := by
  induction freq with
  | nil => simp [bump]
  | cons p rest ih =>
    obtain ⟨s, c⟩ := p
    by_cases h : s = tag
    · subst h
      simp [bump]
    · by_cases h2 : tag ∈ rest.map Prod.fst <;>
        simp [bump, h, h2, ih, Ne.symm h]

/-- One `bump` preserves distinctness of the keys. -/
theorem bump_keys_nodup (freq : List (String × ℕ)) (tag : String)
    (h : (freq.map Prod.fst).Nodup) : ((bump freq tag).map Prod.fst).Nodup := by
  rw [bump_keys]
  by_cases h2 : tag ∈ freq.map Prod.fst
  · simpa [h2] using h
  · simp [h2, List.nodup_append, h, List.disjoint_singleton, h2]

/-- The whole frequency loop preserves distinctness of the keys. -/
theorem foldl_bump_keys_nodup (l : List String) :
    ∀ acc : List (String × ℕ), (acc.map Prod.fst).Nodup →
      ((l.foldl bump acc).map Prod.fst).Nodup := by
  induction l with
  | nil =>
    intro acc h
    simpa using h
  | cons a rest ih =>
    intro acc h
    rw [List.foldl_cons]
    exact ih _ (bump_keys_nodup _ _ h)

/-- One `bump` keeps every stored count at least one. -/
theorem bump_pos (freq : List (String × ℕ)) (tag : String)
    (h : ∀ p ∈ freq, 1 ≤ p.2) : ∀ p ∈ bump freq tag, 1 ≤ p.2 := by
  induction freq with
  | nil =>
    intro p hp
    simp [bump] at hp
    simp [hp]
  | cons q rest ih =>
    obtain ⟨s, c⟩ := q
    intro p hp
    by_cases h1 : s = tag
    · simp [bump, h1] at hp
      rcases hp with hp | hp
      · simp [hp]
      · exact h p (List.mem_cons_of_mem _ hp)
    · simp [bump, h1] at hp
      rcases hp with hp | hp
      · exact h p (by simp [hp])
      · exact ih (fun q hq => h q (List.mem_cons_of_mem _ hq)) p hp

/-- The whole frequency loop keeps every stored count at least one. -/
theorem foldl_bump_pos (l : List String) :
    ∀ acc : List (String × ℕ), (∀ p ∈ acc, 1 ≤ p.2) →
      ∀ p ∈ l.foldl bump acc, 1 ≤ p.2 := by
  induction l with
  | nil =>
    intro acc h
    simpa using h
  | cons a rest ih =>
    intro acc h
    rw [List.foldl_cons]
    exact ih _ (bump_pos _ _ h)

/-- With distinct keys, each entry's stored count is its looked-up count. -/
theorem lookup_of_mem (freq : List (String × ℕ))
    (h : (freq.map Prod.fst).Nodup) :
    ∀ p ∈ freq, lookupCount freq p.1 = p.2 := by
  induction freq with
  | nil => simp
  | cons q rest ih =>
    obtain ⟨s, c⟩ := q
    intro p hp
    rcases List.mem_cons.mp hp with rfl | hp'
    · simp [lookupCount]
    · have hkey : p.1 ∈ rest.map Prod.fst := List.mem_map_of_mem Prod.fst hp'
      have hs : s ≠ p.1 := by
        intro he
        exact (List.nodup_cons.mp (by simpa using h)).1 (he ▸ hkey)
      rw [lookupCount, if_neg hs]
      exact ih (List.nodup_cons.mp (by simpa using h)).2 p hp'

/-- The keys of `buildFreq` are distinct. -/
theorem buildFreq_keys_nodup (l : List String) :
    ((buildFreq l).map Prod.fst).Nodup :=
  foldl_bump_keys_nodup l [] (by simp)

/-- In `buildFreq` a lookup yields each tag's exact multiplicity in the input. -/
theorem buildFreq_lookup (l : List String) (t : String) :
    lookupCount (buildFreq l) t = List.count t l := by
  simpa [lookupCount] using foldl_bump_lookup l [] t

/-- Every entry of `buildFreq` carries its tag's exact multiplicity. -/
theorem buildFreq_count (l : List String) :
    ∀ p ∈ buildFreq l, p.2 = List.count p.1 l := by
  intro p hp
  rw [← buildFreq_lookup l p.1]
  exact (lookup_of_mem _ (buildFreq_keys_nodup l) p hp).symm

/-- Every entry of `buildFreq` has count at least one. -/
theorem buildFreq_pos (l : List String) : ∀ p ∈ buildFreq l, 1 ≤ p.2 :=
  foldl_bump_pos l [] (by simp)

/-- Every key of `buildFreq` occurs in the input. -/
theorem buildFreq_mem (l : List String) : ∀ p ∈ buildFreq l, p.1 ∈ l := by
  intro p hp
  have h1 := buildFreq_pos l p hp
  have h2 := buildFreq_count l p hp
  exact List.count_pos_iff.mp (by omega)

/-- The key sequence produced by the frequency loop: the keys already in the
accumulator, then the input's first occurrences not yet present. -/
theorem foldl_bump_keys (l : List String) :
    ∀ acc : List (String × ℕ),
      (l.foldl bump acc).map Prod.fst =
        acc.map Prod.fst ++
          (firstKeys l).filter (fun s => decide (s ∉ acc.map Prod.fst)) := by
  induction l with
  | nil =>
    intro acc
    simp [firstKeys]
  | cons a rest ih =>
    intro acc
    rw [List.foldl_cons, ih, bump_keys]
    by_cases h : a ∈ acc.map Prod.fst
    · rw [if_pos h, firstKeys]
      have hfc : List.filter (fun s => decide (s ∉ acc.map Prod.fst))
          (a :: (firstKeys rest).filter (fun s => s != a)) =
          List.filter (fun s => decide (s ∉ acc.map Prod.fst))
            ((firstKeys rest).filter (fun s => s != a)) := by
        simp [h]
      rw [hfc, List.filter_filter]
      congr 1
      refine List.filter_congr ?_
      intro s _
      by_cases hs : s = a <;> simp [hs, h]
    · rw [if_neg h, firstKeys]
      have hfc : List.filter (fun s => decide (s ∉ acc.map Prod.fst))
          (a :: (firstKeys rest).filter (fun s => s != a)) =
          a :: List.filter (fun s => decide (s ∉ acc.map Prod.fst))
            ((firstKeys rest).filter (fun s => s != a)) := by
        simp [h]
      rw [hfc, List.filter_filter, List.append_assoc, List.singleton_append]
      congr 2
      refine List.filter_congr ?_
      intro s _
      by_cases hs : s = a <;> by_cases hmem : s ∈ acc.map Prod.fst <;>
        simp [hs, hmem, List.mem_append]

/-- The list `firstKeys l` has its keys in strictly increasing order of first occurrence. -/
theorem firstKeys_pairwise (l : List String) :
    (firstKeys l).Pairwise (fun a b => List.indexOf a l < List.indexOf b l) := by
  induction l with
  | nil => simp [firstKeys]
  | cons t rest ih =>
    rw [firstKeys]
    refine List.pairwise_cons.mpr ⟨?_, ?_⟩
    · intro b hb
      have hbne : b ≠ t := by simpa using (List.mem_filter.mp hb).2
      rw [List.indexOf_cons_self, List.indexOf_cons_ne _ (Ne.symm hbne)]
      exact Nat.succ_pos _
    · refine List.Pairwise.imp_of_mem ?_
        (List.Pairwise.sublist (List.filter_sublist _) ih)
      intro a b ha hb hr
      have hat : a ≠ t := by simpa using (List.mem_filter.mp ha).2
      have hbt : b ≠ t := by simpa using (List.mem_filter.mp hb).2
      rw [List.indexOf_cons_ne _ (Ne.symm hat), List.indexOf_cons_ne _ (Ne.symm hbt)]
      exact Nat.succ_lt_succ hr

/-- The entries of `buildFreq` are in strictly increasing order of the
first occurrence of their key in the input. -/
theorem buildFreq_pairwise (l : List String) :
    (buildFreq l).Pairwise
      (fun p q => List.indexOf p.1 l < List.indexOf q.1 l) := by
  have hkeys : (buildFreq l).map Prod.fst = firstKeys l := by
    simpa [buildFreq] using foldl_bump_keys l []
  have h := firstKeys_pairwise l
  rw [← hkeys, List.pairwise_map] at h
  exact h

/-! ## Claim C5: the stable descending sort -/

/-- Membership through `insertDesc`. -/
theorem mem_insertDesc (a x : String × ℕ) (s : List (String × ℕ)) :
    x ∈ insertDesc a s ↔ x = a ∨ x ∈ s := by
  induction s with
  | nil => simp [insertDesc]
  | cons y ys ih =>
    rw [insertDesc]
    by_cases h : y.2 ≤ a.2 <;> simp [h, ih] <;> tauto

/-- Inserting with `insertDesc` permutes consing. -/
theorem insertDesc_perm (a : String × ℕ) (s : List (String × ℕ)) :
    (insertDesc a s).Perm (a :: s) := by
  induction s with
  | nil => simp [insertDesc]
  | cons y ys ih =>
    rw [insertDesc]
    by_cases h : y.2 ≤ a.2
    · rw [if_pos h]
    · rw [if_neg h]
      exact (ih.cons y).trans (List.Perm.swap a y ys)

/-- Sorting with `sortDesc` permutes its input. -/
theorem sortDesc_perm (s : List (String × ℕ)) : (sortDesc s).Perm s := by
  induction s with
  | nil => simp [sortDesc]
  | cons a rest ih =>
    rw [sortDesc]
    exact (insertDesc_perm a (sortDesc rest)).trans (ih.cons a)

/-- Inserting with `insertDesc` preserves the sorted-descending-by-count invariant. -/
theorem insertDesc_sorted (a : String × ℕ) (s : List (String × ℕ))
    (h : s.Pairwise (fun p q => q.2 ≤ p.2)) :
    (insertDesc a s).Pairwise (fun p q => q.2 ≤ p.2) := by
  induction s with
  | nil => simp [insertDesc]
  | cons y ys ih =>
    rcases List.pairwise_cons.mp h with ⟨hy, hys⟩
    rw [insertDesc]
    by_cases hc : y.2 ≤ a.2
    · rw [if_pos hc]
      refine List.pairwise_cons.mpr ⟨?_, h⟩
      intro z hz
      rcases List.mem_cons.mp hz with rfl | hz'
      · exact hc
      · exact le_trans (hy z hz') hc
    · rw [if_neg hc]
      refine List.pairwise_cons.mpr ⟨?_, ih hys⟩
      intro z hz
      rcases (mem_insertDesc a z ys).mp hz with rfl | hz'
      · exact le_of_lt (Nat.lt_of_not_le hc)
      · exact hy z hz'

/-- Stability of `insertDesc`: the inserted element lands before every
entry of equal count, so any pairwise relation guaranteed between the new
element and the old ones, and among the old ones, survives on pairs of
equal count. -/
theorem insertDesc_stable (Q : String × ℕ → String × ℕ → Prop)
    (a : String × ℕ) (s : List (String × ℕ))
    (hs : s.Pairwise (fun p q => p.2 = q.2 → Q p q))
    (ha : ∀ y ∈ s, Q a y) :
    (insertDesc a s).Pairwise (fun p q => p.2 = q.2 → Q p q) := by
  induction s with
  | nil => simp [insertDesc]
  | cons y ys ih =>
    rcases List.pairwise_cons.mp hs with ⟨hy, hys⟩
    rw [insertDesc]
    by_cases hc : y.2 ≤ a.2
    · rw [if_pos hc]
      refine List.pairwise_cons.mpr ⟨?_, hs⟩
      intro z hz _
      exact ha z hz
    · rw [if_neg hc]
      refine List.pairwise_cons.mpr
        ⟨?_, ih hys (fun z hz => ha z (List.mem_cons_of_mem y hz))⟩
      intro z hz
      rcases (mem_insertDesc a z ys).mp hz with rfl | hz'
      · intro he
        exact absurd (le_of_eq he) hc
      · exact hy z hz'

/-- The `sortDesc` output is sorted descending by count. -/
theorem sortDesc_sorted (s : List (String × ℕ)) :
    (sortDesc s).Pairwise (fun p q => q.2 ≤ p.2) := by
  induction s with
  | nil => simp [sortDesc]
  | cons a rest ih =>
    rw [sortDesc]
    exact insertDesc_sorted a _ ih

/-- Stability of `sortDesc`: any pairwise relation of the input survives on
pairs of equal count. -/
theorem sortDesc_stable (Q : String × ℕ → String × ℕ → Prop)
    (s : List (String × ℕ)) (h : s.Pairwise Q) :
    (sortDesc s).Pairwise (fun p q => p.2 = q.2 → Q p q) := by
  induction s with
  | nil => simp [sortDesc]
  | cons a rest ih =>
    rcases List.pairwise_cons.mp h with ⟨ha, hrest⟩
    rw [sortDesc]
    refine insertDesc_stable Q a _ (ih hrest) ?_
    intro y hy
    exact ha y ((sortDesc_perm rest).mem_iff.mp hy)

/-! ## Claim C5 -/

/-- Claim C5: for every tag sequence and every k, `top_k_tags` returns at
most k pairs, with pairwise-distinct tags each paired with its exact
occurrence count and drawn from the input, sorted by count descending, and
with tags of equal count ordered by the position of their first occurrence
in the input (stable tie order, no alphabetic tie-break). -/
theorem claim_c5_top_k (tag_list : List String) (k : ℕ) :
    (top_k_tags tag_list k).length ≤ k ∧
    ((top_k_tags tag_list k).map Prod.fst).Nodup ∧
    (∀ p ∈ top_k_tags tag_list k,
      p.1 ∈ tag_list ∧ p.2 = List.count p.1 tag_list) ∧
    (top_k_tags tag_list k).Pairwise (fun p q => q.2 ≤ p.2) ∧
    (top_k_tags tag_list k).Pairwise (fun p q =>
      p.2 = q.2 → List.indexOf p.1 tag_list < List.indexOf q.1 tag_list) := by
  have hperm : (sortDesc (buildFreq tag_list)).Perm (buildFreq tag_list) :=
    sortDesc_perm _
  have htake : (top_k_tags tag_list k).Sublist (sortDesc (buildFreq tag_list)) :=
    List.take_sublist _ _
  refine ⟨List.length_take_le _ _, ?_, ?_, ?_, ?_⟩
  · have h1 : ((sortDesc (buildFreq tag_list)).map Prod.fst).Nodup :=
      ((hperm.map Prod.fst).nodup_iff).mpr (buildFreq_keys_nodup _)
    exact List.Nodup.sublist (List.Sublist.map Prod.fst htake) h1
  · intro p hp
    have hpf : p ∈ buildFreq tag_list := hperm.mem_iff.mp (htake.subset hp)
    exact ⟨buildFreq_mem _ p hpf, buildFreq_count _ p hpf⟩
  · exact List.Pairwise.sublist htake (sortDesc_sorted _)
  · exact List.Pairwise.sublist htake
      (sortDesc_stable _ _ (buildFreq_pairwise tag_list))

/-! ## Claims C7 and C8: shared classifier bounds -/

/-- The classifier never returns more than 3 tags, on either path. -/
theorem get_ai_tags_length_le (api_key ai_response : Option String)
    (text : String) : (get_ai_tags api_key ai_response text).length ≤ 3 := by
  have hmock : ∀ t : String, (mockTags t).length ≤ 3 := by
    intro t
    unfold mockTags
    dsimp only
    split_ifs <;> simp
  cases api_key with
  | none => exact hmock text
  | some k =>
    cases ai_response with
    | none => exact hmock text
    | some content =>
      simp only [get_ai_tags, parseAiTags]
      exact List.length_take_le 3 _

/-- Round-half-to-even of a non-negative rational is non-negative. -/
theorem roundHalfEven_nonneg (x : ℚ) (h : 0 ≤ x) : 0 ≤ roundHalfEven x := by
  have hf : (0 : ℤ) ≤ ⌊x⌋ := Int.floor_nonneg.mpr h
  simp only [roundHalfEven]
  split_ifs <;> omega

/-- Applying `pyRound` to a non-negative rational is non-negative. -/
theorem pyRound_nonneg (x : ℚ) (n : ℕ) (h : 0 ≤ x) : 0 ≤ pyRound x n := by
  have h1 : (0 : ℚ) ≤ (roundHalfEven (x * 10 ^ n) : ℚ) := by
    exact_mod_cast roundHalfEven_nonneg _ (mul_nonneg h (by positivity))
  exact div_nonneg h1 (by positivity)

/-! ## Claim C7 (corrected) -/

/-- Cutting the whitespace-only tokens and then mapping the token transform
is one filterMap pass. -/
theorem filter_map_token (f : List Char → String) (l : List (List Char)) :
    (l.filter (fun t => !(trimChars t).isEmpty)).map f =
      l.filterMap (fun t =>
        if (trimChars t).isEmpty then none else some (f t)) := by
  induction l with
  | nil => rfl
  | cons a rest ih =>
    by_cases h : trimChars a = [] <;> simp [h, ih]

/-- The success-path parse as the amended claim words it: strip the bracket
characters, split on commas, discard the tokens that are whitespace-only,
trim whitespace and then quote characters from each surviving token (which
can leave a non-lowercase or even empty token), and keep the first 3. -/
def parsePipelineSpec (response : String) : List String :=
  ((splitComma ((pyStrip response).data.filter
      (fun c => !(c == '[') && !(c == ']')))).filterMap
    (fun t => if (trimChars t).isEmpty then none
      else some (⟨stripAll squote (stripAll dquote (trimChars t))⟩ : String))).take 3

/-- The source's comprehension equals the amended pipeline. -/
theorem parseAiTags_eq_pipeline (content : String) :
    parseAiTags (pyStrip content) = parsePipelineSpec content := by
  have hchars : (((pyStrip content).data.filter (fun c => c != '[')).filter
      (fun c => c != ']')) =
      (pyStrip content).data.filter (fun c => !(c == '[') && !(c == ']')) := by
    rw [List.filter_filter]
    refine List.filter_congr ?_
    intro c _
    simp only [bne]
    exact Bool.and_comm _ _
  simp only [parseAiTags, parsePipelineSpec]
  rw [hchars, List.map_map, filter_map_token]
  rfl

/-- Counterexample to C7 as stated: with a credential configured and the
external service answering `HELLO, ""`, classification returns
`["HELLO", ""]` — the first token is not lowercase and the second is the
empty string, so the claimed shape (each tag lowercase, empty tokens
discarded) fails on the success path. -/
theorem claim_c7_counterexample :
    get_ai_tags (some "sk-test") (some "HELLO, \"\"") "x" = ["HELLO", ""] ∧
    ¬(∀ tag ∈ get_ai_tags (some "sk-test") (some "HELLO, \"\"") "x",
        pyLower tag = tag ∧ tag ≠ "") := by
  constructor
  · decide
  · intro h
    have h1 := h "HELLO" (by decide)
    exact absurd h1.1 (by decide)

/-- Claim C7 as amended: classification always returns at most 3 tags, and
on the external success path it returns exactly the pipeline's tokens:
bracket characters stripped, split on commas, whitespace-only tokens
discarded before quote-trimming, each survivor trimmed of whitespace and
then quote characters, truncated to the first 3 — with no lowercasing and
with possibly-empty tokens surviving. -/
theorem claim_c7_parse_pipeline :
    (∀ (api_key ai_response : Option String) (text : String),
      (get_ai_tags api_key ai_response text).length ≤ 3) ∧
    (∀ key content text : String,
      get_ai_tags (some key) (some content) text = parsePipelineSpec content) := by
  constructor
  · exact get_ai_tags_length_le
  · intro key content text
    simp only [get_ai_tags]
    exact parseAiTags_eq_pipeline content

/-! ## Claim C8 (corrected) -/

/-- Counterexample to C8 as stated: with arbitrary wall-clock readings —
here 1 before the call and 0 after, a clock stepping backwards — the
ingested record's processing_time is -1, so non-negativity does not hold
for arbitrary readings. -/
theorem claim_c8_counterexample :
    ((analyze_review none none (some "hello") 1 0 []).2.map
        (fun r => r.processing_time)) = [-1] ∧
    ¬(∀ r ∈ (analyze_review none none (some "hello") 1 0 []).2,
        0 ≤ r.processing_time) := by
  have hne : pyStrip "hello" ≠ "" := by decide
  have hval : pyRound (-1 : ℚ) 3 = -1 := by
    norm_num [pyRound, roundHalfEven]
  constructor
  · simp [analyze_review, hne, hval]
  · intro h
    have hmem : ReviewRecord.mk (pyStrip "hello")
        (get_ai_tags none none (pyStrip "hello")) (pyRound (-1 : ℚ) 3) ∈
          (analyze_review none none (some "hello") 1 0 []).2 := by
      simp [analyze_review, hne]
    have h2 : (0 : ℚ) ≤ pyRound (-1 : ℚ) 3 := h _ hmem
    rw [hval] at h2
    norm_num at h2

/-- Claim C8 as amended: every stored record's tags list has length at most
3 unconditionally, and its processing_time is non-negative provided the
wall-clock reading taken after the classification call is not earlier than
the one taken before (the source stores `round(t1 - t0, 3)`); ingestion
preserves the whole invariant from any store satisfying it (and the summary
reads the store without modifying it). -/
theorem claim_c8_invariant (api_key ai_response payload : Option String)
    (t0 t1 : ℚ) (db : List ReviewRecord) (hmono : t0 ≤ t1)
    (hdb : ∀ r ∈ db, r.tags.length ≤ 3 ∧ 0 ≤ r.processing_time) :
    ∀ r ∈ (analyze_review api_key ai_response payload t0 t1 db).2,
      r.tags.length ≤ 3 ∧ 0 ≤ r.processing_time := by
  intro r hr
  by_cases h : pyStrip (payload.getD "") = ""
  · simp [analyze_review, h] at hr
    exact hdb r hr
  · simp [analyze_review, h] at hr
    rcases hr with hr | hr
    · exact hdb r hr
    · subst hr
      exact ⟨get_ai_tags_length_le _ _ _,
        pyRound_nonneg _ _ (sub_nonneg.mpr hmono)⟩

/-- Witness for the amended C8 at a concrete monotone-clock ingestion. -/
theorem claim_c8_invariant_witness :
    (ReviewRecord.mk (pyStrip "hello")
        (get_ai_tags none none (pyStrip "hello"))
        (pyRound ((1 : ℚ) - 0) 3)).tags.length ≤ 3 ∧
      0 ≤ (ReviewRecord.mk (pyStrip "hello")
        (get_ai_tags none none (pyStrip "hello"))
        (pyRound ((1 : ℚ) - 0) 3)).processing_time :=
  claim_c8_invariant none none (some "hello") 0 1 [] (by decide) (by simp)
    (ReviewRecord.mk (pyStrip "hello")
      (get_ai_tags none none (pyStrip "hello")) (pyRound ((1 : ℚ) - 0) 3))
    (by simp [analyze_review, show pyStrip "hello" ≠ "" by decide])

/-- The specification's remaining fallback test vectors, checked by
evaluation. -/
theorem mockTags_spec_examples :
    mockTags "My product was broken on arrival" =
      ["defective_item", "product_failure"] ∧
    mockTags "I want a refund for this item" =
      ["refund_request", "customer_service"] ∧
    mockTags "Great product, fast shipping" = ["general_feedback"] := by
  refine ⟨by decide, by decide, by decide⟩

end ReviewAnalytics
